import Mathlib

/-!
Shallow embedding of `src/KnightsTour.py`.

Squares are pairs of (mathematical) integers, as Python `int`s are unbounded.
The adjacency "dict" `self.graph` is embedded as an association list built in
the same row-major insertion order as the Python dict comprehension; Python
dict key lookup corresponds to `List.lookup` (keys are unique, so the first
hit is the only hit).

Python's `_findPath` recursion is embedded with an explicit fuel parameter,
`(size ^ 2).toNat + 1`, which bounds the recursion depth; exhausting fuel
yields the distinguished error `"RecursionError"`.  For every well-formed
board we prove (see `findTour_never_errors`) that the search never returns any
error, so the fuel branch is unreachable there and the embedding agrees with
the Python partial function.  Exceptions (`KeyError` from a failed dict
lookup) are embedded in the `Except String` layer; Python's `return None` is
`Except.ok none` and a returned path is `Except.ok (some path)`.
-/

/-- A board square `(row, col)`, a Python 2-tuple of ints. -/
abbrev Square := Int × Int

/-- Source `KnightsTour.valid`: `(0 <= x < self.size) and (0 <= y < self.size)`. -/
def valid (size : Int) (square : Square) : Bool :=
  (decide (0 ≤ square.1) && decide (square.1 < size)) &&
    (decide (0 ≤ square.2) && decide (square.2 < size))

/-- Source `KnightsTour.moves`: the eight candidate offsets in source order
(`left_twos ++ right_twos ++ up_twos ++ down_twos`), filtered by `valid`. -/
def moves (size : Int) (square : Square) : List Square :=
  let x := square.1
  let y := square.2
  let left_twos := [(x - 2, y - 1), (x - 2, y + 1)]
  let right_twos := [(x + 2, y - 1), (x + 2, y + 1)]
  let up_twos := [(x - 1, y - 2), (x + 1, y - 2)]
  let down_twos := [(x - 1, y + 2), (x + 1, y + 2)]
  let all_moves := left_twos ++ right_twos ++ up_twos ++ down_twos
  all_moves.filter (fun move => valid size move)

/-- The graph built in `__init__`:
`{ (i, j) : self.moves((i, j)) for i in range(self.size) for j in range(self.size) }`,
in row-major insertion order.  `range(size)` of a non-positive `size` is
empty, matching `size.toNat = 0`. -/
def buildGraph (size : Int) : List (Square × List Square) :=
  (List.range size.toNat).flatMap (fun (i : Nat) =>
    (List.range size.toNat).map (fun (j : Nat) =>
      (((i : Int), (j : Int)), moves size ((i : Int), (j : Int)))))

/-- The state of a `KnightsTour` object after `__init__`. -/
structure KnightsTour where
  start : Square
  size : Int
  graph : List (Square × List Square)

/-- Source `KnightsTour.__init__(start, size)`: stores the arguments (no validation)
and builds the graph. -/
def KnightsTour.init (start : Square) (size : Int) : KnightsTour :=
  { start := start, size := size, graph := buildGraph size }

/-- Python truthiness of a `list`-or-`None` value: `None` and `[]` are falsy. -/
def pyTruthy : Option (List Square) → Bool
  | none => false
  | some l => !l.isEmpty

/-- Key extraction performed by `sorted(nodes, key=lambda x: len(self.graph[x]))`:
pair each node with `len(self.graph[x])`, in list order; a missing key raises
`KeyError`. -/
def keyNodes (g : List (Square × List Square)) : List Square → Except String (List (Square × Nat))
  | [] => Except.ok []
  | n :: rest =>
    match g.lookup n with
    | none => Except.error "KeyError"
    | some adj =>
      match keyNodes g rest with
      | Except.error e => Except.error e
      | Except.ok ks => Except.ok ((n, adj.length) :: ks)

/-- The comparison used on keyed nodes: ascending by the static degree. -/
def degLE (a b : Square × Nat) : Prop :=
  a.2 ≤ b.2

instance : DecidableRel degLE := fun a b => Nat.decLe a.2 b.2

instance : IsTotal (Square × Nat) degLE :=
  ⟨fun a b => Nat.le_total a.2 b.2⟩

instance : IsTrans (Square × Nat) degLE :=
  ⟨fun _ _ _ hab hbc => Nat.le_trans hab hbc⟩

/-- Source `sorted(nodes, key=lambda x: len(self.graph[x]))`: Python's `sorted` is
the stable sort ascending by key.  A stable sort's output is uniquely
determined by the comparison, so it is embedded as the (stable) insertion
sort of the key-decorated list, which also computes definitionally. -/
def exploreOrder (g : List (Square × List Square)) (nodes : List Square) :
    Except String (List Square) :=
  match keyNodes g nodes with
  | Except.error e => Except.error e
  | Except.ok keyed => Except.ok ((keyed.insertionSort degLE).map Prod.fst)

/-- The `for node in sorted(...)` loop body of `_findPath`: skip nodes already
in `path`, recurse, return the first truthy result, propagate exceptions. -/
def tryNodes (f : Square → Except String (Option (List Square))) (path : List Square) :
    List Square → Except String (Option (List Square))
  | [] => Except.ok none
  | node :: rest =>
    if path.contains node then tryNodes f path rest
    else
      match f node with
      | Except.error e => Except.error e
      | Except.ok r => if pyTruthy r then Except.ok r else tryNodes f path rest

/-- Source `KnightsTour._findPath(start, path)`, with fuel bounding recursion depth. -/
def findPath (kt : KnightsTour) : Nat → Square → List Square → Except String (Option (List Square))
  | 0 => fun _ _ => Except.error "RecursionError"
  | fuel + 1 => fun start path0 =>
    let path := path0 ++ [start]
    if (path.length : Int) = kt.size ^ 2 then
      Except.ok (some path)
    else
      match kt.graph.lookup start with
      | none => Except.error "KeyError"
      | some adj =>
        let nodes := adj.filter (fun node => !path.contains node)
        match exploreOrder kt.graph nodes with
        | Except.error e => Except.error e
        | Except.ok sortedNodes =>
          tryNodes (fun node => findPath kt fuel node path) path sortedNodes

/-- Fuel sufficient for the maximal recursion depth `size ^ 2` (spec §4.2). -/
def fuelFor (kt : KnightsTour) : Nat :=
  (kt.size ^ 2).toNat + 1

/-- Source `KnightsTour.findTour`: `return self._findPath(self.start)` with the
default `path=[]`. -/
def findTour (kt : KnightsTour) : Except String (Option (List Square)) :=
  findPath kt (fuelFor kt) kt.start []

/-- Predicate: `findTour` returned the explicit no-tour failure signal (`None`). -/
def returnsNone (start : Square) (size : Int) : Bool :=
  match findTour (KnightsTour.init start size) with
  | Except.ok none => true
  | _ => false

/-! ## Structure of the adjacency graph -/

/-- The squares of the board in the row-major order of the dict comprehension. -/
def allSquares (size : Int) : List Square :=
  (List.range size.toNat).flatMap (fun (i : Nat) =>
    (List.range size.toNat).map (fun (j : Nat) => ((i : Int), (j : Int))))

theorem buildGraph_eq_map (n : Int) :
    buildGraph n = (allSquares n).map (fun s => (s, moves n s)) := by
  simp [buildGraph, allSquares, List.map_flatMap, List.map_map, Function.comp_def]

theorem valid_iff {n : Int} {s : Square} :
    valid n s = true ↔ 0 ≤ s.1 ∧ s.1 < n ∧ 0 ≤ s.2 ∧ s.2 < n := by
  obtain ⟨x, y⟩ := s
  simp [valid]
  tauto

theorem mem_allSquares {n : Int} {s : Square} : s ∈ allSquares n ↔ valid n s = true := by
  obtain ⟨x, y⟩ := s
  rw [valid_iff]
  constructor
  · intro h
    rw [allSquares, List.mem_flatMap] at h
    obtain ⟨i, hi, h2⟩ := h
    rw [List.mem_map] at h2
    obtain ⟨j, hj, hpair⟩ := h2
    rw [List.mem_range] at hi hj
    rw [Prod.ext_iff] at hpair
    obtain ⟨h1, h2⟩ := hpair
    dsimp at h1 h2
    omega
  · rintro ⟨hx0, hxn, hy0, hyn⟩
    rw [allSquares]
    refine List.mem_flatMap.mpr ⟨x.toNat, ?_, List.mem_map.mpr ⟨y.toNat, ?_, ?_⟩⟩
    · rw [List.mem_range]
      omega
    · rw [List.mem_range]
      omega
    · rw [Prod.ext_iff]
      constructor <;> (dsimp; omega)

theorem lookup_pairMap {β : Type} (f : Square → β) (s : Square) :
    ∀ l : List Square, (l.map (fun t => (t, f t))).lookup s =
      if s ∈ l then some (f s) else none := by
  intro l
  induction l with
  | nil => simp [List.lookup]
  | cons t ts ih =>
    by_cases h : s = t
    · subst h
      simp [List.lookup]
    · have hb : (s == t) = false := by
        simp [h]
      simp [List.lookup, hb, ih, h]

theorem lookup_buildGraph (n : Int) (s : Square) :
    (buildGraph n).lookup s = if valid n s = true then some (moves n s) else none := by
  rw [buildGraph_eq_map, lookup_pairMap]
  by_cases h : valid n s = true
  · rw [if_pos (mem_allSquares.mpr h), if_pos h]
  · rw [if_neg (fun hm => h (mem_allSquares.mp hm)), if_neg h]

/-- Modelled from the spec: the eight canonical knight-move offsets in the
fixed enumeration order `(r−2,c−1), (r−2,c+1), (r+2,c−1), (r+2,c+1),
(r−1,c−2), (r+1,c−2), (r−1,c+2), (r+1,c+2)` (spec §4.1), for comparison with
the source's `moves`. -/
def specOffsets (s : Square) : List Square :=
  [(s.1 - 2, s.2 - 1), (s.1 - 2, s.2 + 1),
   (s.1 + 2, s.2 - 1), (s.1 + 2, s.2 + 1),
   (s.1 - 1, s.2 - 2), (s.1 + 1, s.2 - 2),
   (s.1 - 1, s.2 + 2), (s.1 + 1, s.2 + 2)]

theorem moves_eq_filter_specOffsets (n : Int) (s : Square) :
    moves n s = (specOffsets s).filter (fun m => valid n m) :=
  rfl

theorem specOffsets_nodup (s : Square) : (specOffsets s).Nodup := by
  simp [specOffsets, List.nodup_cons, List.mem_cons, Prod.ext_iff]
  omega

theorem self_not_mem_specOffsets (s : Square) : s ∉ specOffsets s := by
  simp [specOffsets, List.mem_cons, Prod.ext_iff]
  omega

theorem mem_moves {n : Int} {s m : Square} :
    m ∈ moves n s ↔ m ∈ specOffsets s ∧ valid n m = true := by
  rw [moves_eq_filter_specOffsets, List.mem_filter]

theorem allSquares_eq_product (n : Int) :
    allSquares n = ((List.range n.toNat) ×ˢ (List.range n.toNat)).map
      (fun p => ((p.1 : Int), (p.2 : Int))) := by
  simp [allSquares, SProd.sprod, List.product, List.map_flatMap, List.map_map,
    Function.comp_def]

theorem allSquares_length (n : Int) : (allSquares n).length = n.toNat * n.toNat := by
  rw [allSquares_eq_product]
  simp [List.length_product]

theorem allSquares_nodup (n : Int) : (allSquares n).Nodup := by
  rw [allSquares_eq_product]
  refine List.Nodup.map ?_ ((List.nodup_range _).product (List.nodup_range _))
  intro p q h
  rw [Prod.ext_iff] at h ⊢
  obtain ⟨h1, h2⟩ := h
  dsimp at h1 h2
  omega

theorem mem_buildGraph {n : Int} {s : Square} {l : List Square} :
    (s, l) ∈ buildGraph n ↔ valid n s = true ∧ l = moves n s := by
  rw [buildGraph_eq_map, List.mem_map]
  constructor
  · rintro ⟨t, ht, hpair⟩
    rw [Prod.ext_iff] at hpair
    obtain ⟨h1, h2⟩ := hpair
    dsimp at h1 h2
    subst h1
    exact ⟨mem_allSquares.mp ht, h2.symm⟩
  · rintro ⟨hv, hl⟩
    exact ⟨s, mem_allSquares.mpr hv, by rw [hl]⟩

/-! ## Claim C2: the move generator -/

/-- C2: for every board size `≥ 1` and on-board square, `moves` returns
exactly the canonical knight-move offsets that stay on the board, in the
fixed enumeration order with invalid candidates skipped in place (it equals
the spec's offset enumeration filtered by the bounds check), and it is a pure
function of the square and the board size alone. -/
theorem moves_exactly_valid_offsets (n : Int) (s : Square)
    (hn : 1 ≤ n) (hs : valid n s = true) :
    moves n s = (specOffsets s).filter (fun m => valid n m) ∧
    (∀ m, m ∈ moves n s ↔ m ∈ specOffsets s ∧ valid n m = true) ∧
    (∀ kt kt' : KnightsTour, kt.size = n → kt'.size = n →
      moves kt.size s = moves kt'.size s) := by
  refine ⟨moves_eq_filter_specOffsets n s, fun m => mem_moves, ?_⟩
  intro kt kt' h h'
  rw [h, h']

/-- Witness for C2 at `n = 8`, `s = (0, 0)`. -/
theorem moves_exactly_valid_offsets_witness :
    moves 8 ((0 : Int), (0 : Int)) =
      (specOffsets ((0 : Int), (0 : Int))).filter (fun m => valid 8 m) ∧
    (∀ m, m ∈ moves 8 ((0 : Int), (0 : Int)) ↔
      m ∈ specOffsets ((0 : Int), (0 : Int)) ∧ valid 8 m = true) ∧
    (∀ kt kt' : KnightsTour, kt.size = 8 → kt'.size = 8 →
      moves kt.size ((0 : Int), (0 : Int)) = moves kt'.size ((0 : Int), (0 : Int))) :=
  moves_exactly_valid_offsets 8 ((0 : Int), (0 : Int)) (by norm_num) (by decide)

/-! ## Claim C8: invariants of the adjacency map -/

/-- C8: for `size ≥ 1` the adjacency map has exactly `size * size` keys, one
per board square (keys are distinct); every entry of every value list is a
valid board square reached by one of the 8 canonical knight offsets, with no
duplicates and no self-reference; for `size < 1` the map is empty. -/
theorem buildGraph_invariants (n : Int) :
    (1 ≤ n → ((buildGraph n).length : Int) = n * n) ∧
    ((buildGraph n).map Prod.fst).Nodup ∧
    (∀ s l, (s, l) ∈ buildGraph n →
      l.Nodup ∧ s ∉ l ∧ ∀ e ∈ l, valid n e = true ∧ e ∈ specOffsets s) ∧
    (n < 1 → buildGraph n = []) := by
  refine ⟨?_, ?_, ?_, ?_⟩
  · intro hn
    rw [buildGraph_eq_map, List.length_map, allSquares_length]
    have h0 : (0 : Int) ≤ n := le_trans (by norm_num) hn
    push_cast
    rw [Int.toNat_of_nonneg h0]
  · rw [buildGraph_eq_map, List.map_map]
    have h : (Prod.fst ∘ fun s : Square => (s, moves n s)) = id := rfl
    rw [h, List.map_id]
    exact allSquares_nodup n
  · intro s l hmem
    obtain ⟨hv, hl⟩ := mem_buildGraph.mp hmem
    subst hl
    refine ⟨?_, ?_, ?_⟩
    · rw [moves_eq_filter_specOffsets]
      exact (specOffsets_nodup s).filter _
    · intro hs
      exact self_not_mem_specOffsets s (mem_moves.mp hs).1
    · intro e he
      obtain ⟨h1, h2⟩ := mem_moves.mp he
      exact ⟨h2, h1⟩
  · intro hn
    have : n.toNat = 0 := by omega
    simp [buildGraph, this]

/-- Witness for C8: instantiations at `n = 4` (positive size) and `n = 0`
(degenerate size), with the hypotheses discharged concretely. -/
theorem buildGraph_invariants_witness :
    ((buildGraph 4).length : Int) = 4 * 4 ∧
    buildGraph 0 = [] ∧
    ((moves 4 ((0 : Int), (0 : Int))).Nodup ∧
      ((0 : Int), (0 : Int)) ∉ moves 4 ((0 : Int), (0 : Int)) ∧
      ∀ e ∈ moves 4 ((0 : Int), (0 : Int)),
        valid 4 e = true ∧ e ∈ specOffsets ((0 : Int), (0 : Int))) :=
  ⟨(buildGraph_invariants 4).1 (by norm_num),
   (buildGraph_invariants 0).2.2.2 (by norm_num),
   (buildGraph_invariants 4).2.2.1 ((0 : Int), (0 : Int)) (moves 4 ((0 : Int), (0 : Int)))
     (by decide)⟩

/-! ## Soundness of the search -/

/-- Adjacency via the stored map: `b` is in the adjacency entry of `a`. -/
def adjIn (g : List (Square × List Square)) (a b : Square) : Prop :=
  ∃ e, g.lookup a = some e ∧ b ∈ e

/-- Static degree of a node (`len(self.graph[x])`). -/
def degOf (g : List (Square × List Square)) (m : Square) : Nat :=
  ((g.lookup m).getD []).length

theorem keyNodes_eq_of_isSome (g : List (Square × List Square)) :
    ∀ nodes : List Square, (∀ m ∈ nodes, (g.lookup m).isSome = true) →
      keyNodes g nodes = Except.ok (nodes.map (fun m => (m, degOf g m))) := by
  intro nodes h
  induction nodes with
  | nil => simp [keyNodes]
  | cons m ms ih =>
    obtain ⟨adj, hadj⟩ := Option.isSome_iff_exists.mp (h m (List.mem_cons_self m ms))
    have hrest := ih (fun q hq => h q (List.mem_cons_of_mem m hq))
    simp [keyNodes, hadj, hrest, degOf]

theorem exploreOrder_eq_of_isSome (g : List (Square × List Square))
    (nodes : List Square) (h : ∀ m ∈ nodes, (g.lookup m).isSome = true) :
    exploreOrder g nodes =
      Except.ok (((nodes.map (fun m => (m, degOf g m))).insertionSort degLE).map Prod.fst) := by
  rw [exploreOrder, keyNodes_eq_of_isSome g nodes h]

theorem mem_of_mem_sortedNodes {g : List (Square × List Square)}
    {nodes : List Square} {x : Square}
    (hx : x ∈ ((nodes.map (fun m => (m, degOf g m))).insertionSort degLE).map Prod.fst) :
    x ∈ nodes := by
  rw [List.mem_map] at hx
  obtain ⟨p, hp, hfst⟩ := hx
  rw [List.mem_insertionSort, List.mem_map] at hp
  obtain ⟨m, hm, hpair⟩ := hp
  subst hpair
  subst hfst
  exact hm

theorem tryNodes_spec (f : Square → Except String (Option (List Square)))
    (path : List Square) (P : List Square → Prop) :
    ∀ l : List Square,
      (∀ node ∈ l, path.contains node = false →
        (∃ r, f node = Except.ok r) ∧ (∀ p, f node = Except.ok (some p) → P p)) →
      (∃ r, tryNodes f path l = Except.ok r) ∧
      (∀ p, tryNodes f path l = Except.ok (some p) → P p) := by
  intro l
  induction l with
  | nil =>
    intro _
    refine ⟨⟨none, rfl⟩, ?_⟩
    intro p hp
    simp [tryNodes] at hp
  | cons node rest ih =>
    intro h
    have hrest := ih (fun q hq => h q (List.mem_cons_of_mem node hq))
    by_cases hm : node ∈ path
    · simpa [tryNodes, hm] using hrest
    · have hc : path.contains node = false := by simpa using hm
      obtain ⟨⟨r, hr⟩, hP⟩ := h node (List.mem_cons_self node rest) hc
      by_cases ht : pyTruthy r = true
      · have heq : tryNodes f path (node :: rest) = Except.ok r := by
          simp [tryNodes, hm, hr, ht]
        refine ⟨⟨r, heq⟩, ?_⟩
        intro p hp
        rw [heq] at hp
        injection hp with h1
        subst h1
        exact hP p hr
      · rw [Bool.not_eq_true] at ht
        have heq : tryNodes f path (node :: rest) = tryNodes f path rest := by
          simp [tryNodes, hm, hr, ht]
        rw [heq]
        exact hrest

theorem findPath_succ (kt : KnightsTour) (fuel : Nat) (cur : Square) (path0 : List Square) :
    findPath kt (fuel + 1) cur path0 =
      (if ((path0 ++ [cur]).length : Int) = kt.size ^ 2 then
        Except.ok (some (path0 ++ [cur]))
      else
        match kt.graph.lookup cur with
        | none => Except.error "KeyError"
        | some adj =>
          match exploreOrder kt.graph
              (adj.filter (fun node => !(path0 ++ [cur]).contains node)) with
          | Except.error e => Except.error e
          | Except.ok sortedNodes =>
            tryNodes (fun node => findPath kt fuel node (path0 ++ [cur]))
              (path0 ++ [cur]) sortedNodes) :=
  rfl

theorem head?_append_of_ne_nil' {l l' : List Square} (h : l ≠ []) :
    (l ++ l').head? = l.head? := by
  cases l with
  | nil => exact absurd rfl h
  | cons a t => rfl

theorem findPath_master (n : Int) (s0 : Square) (hn : 1 ≤ n) :
    ∀ (fuel : Nat) (cur : Square) (path0 : List Square),
      valid n cur = true →
      (∀ q ∈ path0, valid n q = true) →
      (path0 ++ [cur]).Nodup →
      (path0 ++ [cur]).Chain' (adjIn (buildGraph n)) →
      (path0.length : Int) + 1 ≤ n ^ 2 →
      (n ^ 2 : Int) ≤ (path0.length : Int) + fuel →
      (∃ r, findPath (KnightsTour.init s0 n) fuel cur path0 = Except.ok r) ∧
      (∀ p, findPath (KnightsTour.init s0 n) fuel cur path0 = Except.ok (some p) →
        (p.length : Int) = n ^ 2 ∧ p.Nodup ∧ p.Chain' (adjIn (buildGraph n)) ∧
        p.head? = (path0 ++ [cur]).head? ∧ ∀ q ∈ p, valid n q = true) := by
  intro fuel
  induction fuel with
  | zero =>
    intro cur path0 _ _ _ _ hlen hfuel
    exfalso
    push_cast at hfuel
    linarith
  | succ fuel ih =>
    intro cur path0 hv hpv hnd hch hlen hfuel
    set kt := KnightsTour.init s0 n with hkt
    have hsize : kt.size = n := rfl
    have hgraph : kt.graph = buildGraph n := rfl
    rw [findPath_succ]
    set path : List Square := path0 ++ [cur] with hpath
    have hplen : path.length = path0.length + 1 := by
      rw [hpath, List.length_append, List.length_singleton]
    by_cases hdone : ((path.length : Int) = kt.size ^ 2)
    · rw [if_pos hdone]
      refine ⟨⟨some path, rfl⟩, ?_⟩
      intro p hp
      injection hp with h1
      injection h1 with h2
      subst h2
      refine ⟨hdone, hnd, hch, rfl, ?_⟩
      intro q hq
      rw [hpath] at hq
      rcases List.mem_append.mp hq with hq0 | hq1
      · exact hpv q hq0
      · rw [List.mem_singleton] at hq1
        subst hq1
        exact hv
    · rw [if_neg hdone]
      have hlk : kt.graph.lookup cur = some (moves n cur) := by
        rw [hgraph, lookup_buildGraph, if_pos hv]
      simp only [hlk]
      have hpathne : path ≠ [] := by simp [hpath]
      have hnodesSome : ∀ m ∈ (moves n cur).filter (fun node => !path.contains node),
          (kt.graph.lookup m).isSome = true := by
        intro m hm
        have hmv : valid n m = true := (mem_moves.mp (List.mem_of_mem_filter hm)).2
        rw [hgraph, lookup_buildGraph, if_pos hmv]
        rfl
      simp only [exploreOrder_eq_of_isSome kt.graph _ hnodesSome]
      refine tryNodes_spec _ path _ _ ?_
      intro node hnode hcf
      have hmem0 : node ∈ (moves n cur).filter (fun q => !path.contains q) :=
        mem_of_mem_sortedNodes hnode
      have hmemmv : node ∈ moves n cur := List.mem_of_mem_filter hmem0
      have hnv : valid n node = true := (mem_moves.mp hmemmv).2
      have hnotmem : node ∉ path := by simpa using hcf
      have hpv' : ∀ q ∈ path, valid n q = true := by
        intro q hq
        rw [hpath] at hq
        rcases List.mem_append.mp hq with hq0 | hq1
        · exact hpv q hq0
        · rw [List.mem_singleton] at hq1
          subst hq1
          exact hv
      have hnd' : (path ++ [node]).Nodup := by
        rw [List.nodup_append]
        refine ⟨hnd, List.nodup_singleton node, ?_⟩
        intro a ha ha'
        rw [List.mem_singleton] at ha'
        subst ha'
        exact hnotmem ha
      have hadj : adjIn (buildGraph n) cur node := ⟨moves n cur, by rw [← hgraph]; exact hlk, hmemmv⟩
      have hch' : (path ++ [node]).Chain' (adjIn (buildGraph n)) := by
        rw [List.chain'_append]
        refine ⟨hch, List.chain'_singleton node, ?_⟩
        intro x hx y hy
        rw [hpath, List.getLast?_concat, Option.mem_def, Option.some.injEq] at hx
        rw [List.head?_cons, Option.mem_def, Option.some.injEq] at hy
        subst hx
        subst hy
        exact hadj
      have hlenle : (path.length : Int) ≤ n ^ 2 := by
        rw [hplen]
        push_cast
        linarith
      have hlt : (path.length : Int) < n ^ 2 := lt_of_le_of_ne hlenle hdone
      have hlen' : (path.length : Int) + 1 ≤ n ^ 2 := Int.lt_iff_add_one_le.mp hlt
      have hfuel' : (n ^ 2 : Int) ≤ (path.length : Int) + fuel := by
        rw [hplen]
        push_cast
        push_cast at hfuel
        linarith
      obtain ⟨hex, hprop⟩ := ih node path hnv hpv' hnd' hch' hlen' hfuel'
      refine ⟨hex, ?_⟩
      intro p hp
      obtain ⟨q1, q2, q3, q4, q5⟩ := hprop p hp
      rw [head?_append_of_ne_nil' hpathne] at q4
      exact ⟨q1, q2, q3, q4, q5⟩

/-- Instantiation of `findPath_master` at the top-level call made by
`findTour`: empty accumulated path, the configured start square, and the
fuel `size ^ 2 + 1` that bounds the recursion depth. -/
theorem findTour_master (n : Int) (start : Square) (hn : 1 ≤ n)
    (hs : valid n start = true) :
    (∃ r, findTour (KnightsTour.init start n) = Except.ok r) ∧
    (∀ p, findTour (KnightsTour.init start n) = Except.ok (some p) →
      (p.length : Int) = n ^ 2 ∧ p.Nodup ∧ p.Chain' (adjIn (buildGraph n)) ∧
      p.head? = some start ∧ ∀ q ∈ p, valid n q = true) := by
  have hsq1 : (1 : Int) ≤ n ^ 2 := by nlinarith
  have hsqnn : (0 : Int) ≤ n ^ 2 := by linarith
  have hmaster := findPath_master n start hn (fuelFor (KnightsTour.init start n)) start []
    hs (by simp) (by simp) (by simp [List.chain'_singleton])
    (by simpa using hsq1)
    (by
      show (n ^ 2 : Int) ≤ (([] : List Square).length : Int) + (fuelFor (KnightsTour.init start n) : Int)
      have : ((fuelFor (KnightsTour.init start n) : Nat) : Int) = n ^ 2 + 1 := by
        show (((n ^ 2).toNat + 1 : Nat) : Int) = n ^ 2 + 1
        push_cast
        rw [Int.toNat_of_nonneg hsqnn]
      rw [this]
      linarith)
  obtain ⟨hex, hprop⟩ := hmaster
  refine ⟨hex, ?_⟩
  intro p hp
  obtain ⟨q1, q2, q3, q4, q5⟩ := hprop p hp
  refine ⟨q1, q2, q3, ?_, q5⟩
  simpa using q4

/-! ## Claim C1: a returned path is a complete tour -/

/-- C1: on a well-formed board (`size ≥ 1`, start on the board), whenever
`findTour` returns a path rather than the failure signal, that path has
length `size ^ 2`, has no duplicate squares, begins with the configured start
square, and each consecutive pair of squares is related by the adjacency map
entry of the earlier square; in particular no partial path is ever
returned. -/
theorem findTour_returns_complete_tour (n : Int) (start : Square)
    (hn : 1 ≤ n) (hs : valid n start = true) :
    ∀ p, findTour (KnightsTour.init start n) = Except.ok (some p) →
      (p.length : Int) = n ^ 2 ∧ p.Nodup ∧ p.head? = some start ∧
      p.Chain' (adjIn (KnightsTour.init start n).graph) := by
  intro p hp
  obtain ⟨q1, q2, q3, q4, _⟩ := (findTour_master n start hn hs).2 p hp
  exact ⟨q1, q2, q4, q3⟩

/-- Witness for C1 on the 1×1 board: `findTour` returns `[(0, 0)]`, which the
theorem certifies as a complete tour. -/
theorem findTour_returns_complete_tour_witness :
    (([((0 : Int), (0 : Int))] : List Square).length : Int) = 1 ^ 2 ∧
    ([((0 : Int), (0 : Int))] : List Square).Nodup ∧
    ([((0 : Int), (0 : Int))] : List Square).head? = some ((0 : Int), (0 : Int)) ∧
    ([((0 : Int), (0 : Int))] : List Square).Chain'
      (adjIn (KnightsTour.init ((0 : Int), (0 : Int)) 1).graph) :=
  findTour_returns_complete_tour 1 ((0 : Int), (0 : Int)) (by norm_num) (by decide)
    [((0 : Int), (0 : Int))] (by rfl)

/-! ## Claim C10: the search is total and never fails a map lookup -/

/-- C10: on a well-formed board the evaluation of `findTour` is total and
never fails: it always produces `Except.ok` (so no `KeyError` from a dict
lookup, and no recursion-limit exhaustion), because every square the search
recurses on or sorts by is a key of the adjacency map. -/
theorem findTour_never_errors (n : Int) (start : Square)
    (hn : 1 ≤ n) (hs : valid n start = true) :
    (∃ r, findTour (KnightsTour.init start n) = Except.ok r) ∧
    (∀ e, findTour (KnightsTour.init start n) ≠ Except.error e) := by
  obtain ⟨r, hr⟩ := (findTour_master n start hn hs).1
  refine ⟨⟨r, hr⟩, ?_⟩
  intro e he
  rw [hr] at he
  exact Except.noConfusion he

/-- Witness for C10 on the 1×1 board. -/
theorem findTour_never_errors_witness :
    (∃ r, findTour (KnightsTour.init ((0 : Int), (0 : Int)) 1) = Except.ok r) ∧
    (∀ e, findTour (KnightsTour.init ((0 : Int), (0 : Int)) 1) ≠ Except.error e) :=
  findTour_never_errors 1 ((0 : Int), (0 : Int)) (by norm_num) (by decide)

/-! ## Claim C4: construction-time validation (refuted)

The spec asserts that invalid construction input (`size < 1` or a start
square off the board) is reported as a configuration error before any search
attempt.  `__init__` performs no validation at all: it stores the arguments
and builds the graph.  The failure, when there is one, happens *inside* the
search (`KeyError` on the first adjacency lookup), and for `size = 1` an
out-of-range start is not detected at all: the search immediately "succeeds"
with the bogus one-square path `[start]`. -/

/-- Counterexample to C4 at the concrete inputs `start = (5, 5), size = 1`
and `start = (9, 9), size = 8`: no configuration error is ever reported.
With `size = 1` the search runs and returns a normal success (an `Except.ok`
result, never an error) despite the out-of-range start; with `size = 8` the
out-of-range start surfaces as a `KeyError` *during* the search. -/
theorem construction_not_validated_counterexample :
    findTour (KnightsTour.init ((5 : Int), (5 : Int)) 1) =
      Except.ok (some [((5 : Int), (5 : Int))]) ∧
    findTour (KnightsTour.init ((9 : Int), (9 : Int)) 8) = Except.error "KeyError" :=
  ⟨rfl, by rfl⟩

/-- C4 amended: the constructor performs no validation and no configuration
error exists.  For `size ≥ 2` and an out-of-range start the search raises
`KeyError` at its first adjacency lookup; for `size = 1` (and likewise
`size = -1`, where `size ** 2 = 1`) `findTour` returns the one-square path
`[start]` whether or not `start` is on the board; for the remaining
degenerate sizes (`size = 0` or `size ≤ -2`) the search raises `KeyError`. -/
theorem findTour_no_construction_validation :
    (∀ (s : Square) (n : Int), 2 ≤ n → valid n s = false →
      findTour (KnightsTour.init s n) = Except.error "KeyError") ∧
    (∀ s : Square, findTour (KnightsTour.init s 1) = Except.ok (some [s])) ∧
    (∀ s : Square, findTour (KnightsTour.init s (-1)) = Except.ok (some [s])) ∧
    (∀ (s : Square) (n : Int), n ≤ 0 → n ≠ -1 →
      findTour (KnightsTour.init s n) = Except.error "KeyError") := by
  have hstep : ∀ (s : Square) (n : Int), (1 : Int) ≠ n ^ 2 → valid n s = false →
      findTour (KnightsTour.init s n) = Except.error "KeyError" := by
    intro s n hne hval
    show findPath (KnightsTour.init s n) ((n ^ 2).toNat + 1) s [] = Except.error "KeyError"
    rw [findPath_succ]
    rw [if_neg (by simpa using hne)]
    have hlk : (KnightsTour.init s n).graph.lookup s = none := by
      show (buildGraph n).lookup s = none
      rw [lookup_buildGraph, if_neg (by simp [hval])]
    simp only [hlk]
  refine ⟨?_, ?_, ?_, ?_⟩
  · intro s n hn hval
    refine hstep s n ?_ hval
    nlinarith
  · intro s
    rfl
  · intro s
    rfl
  · intro s n hn hne1
    have hval : valid n s = false := by
      rcases Bool.eq_false_or_eq_true (valid n s) with h | h
      · rw [valid_iff] at h
        exfalso
        omega
      · exact h
    refine hstep s n ?_ hval
    rcases lt_or_eq_of_le hn with h | h
    · have h2 : n ≤ -1 := by omega
      have h3 : n ≤ -2 := by omega
      nlinarith
    · subst h
      norm_num

/-- Witness for the amended C4: concrete instantiations of each branch. -/
theorem findTour_no_construction_validation_witness :
    findTour (KnightsTour.init ((7 : Int), (0 : Int)) 2) = Except.error "KeyError" ∧
    findTour (KnightsTour.init ((3 : Int), (4 : Int)) 1) =
      Except.ok (some [((3 : Int), (4 : Int))]) ∧
    findTour (KnightsTour.init ((0 : Int), (0 : Int)) 0) = Except.error "KeyError" :=
  ⟨findTour_no_construction_validation.1 ((7 : Int), (0 : Int)) 2 (by norm_num) (by decide),
   findTour_no_construction_validation.2.1 ((3 : Int), (4 : Int)),
   findTour_no_construction_validation.2.2.2 ((0 : Int), (0 : Int)) 0 (by norm_num)
     (by norm_num)⟩

/-! ## Claim C7: determinism of `findTour` -/

/-- C7: `findTour` is deterministic.  Any two `KnightsTour` objects built by
the constructor from the same start square and the same size (hence with the
same stored graph) give identical `findTour` results; there is no hidden
state and no dependence on prior calls (the embedding is a pure function of
the object's fields, and `_findPath` never mutates its default argument). -/
theorem findTour_deterministic (start : Square) (n : Int) (k1 k2 : KnightsTour)
    (h1 : k1.start = start) (h2 : k1.size = n) (h3 : k1.graph = buildGraph n)
    (h4 : k2.start = start) (h5 : k2.size = n) (h6 : k2.graph = buildGraph n) :
    findTour k1 = findTour k2 := by
  obtain ⟨a1, b1, c1⟩ := k1
  obtain ⟨a2, b2, c2⟩ := k2
  dsimp at h1 h2 h3 h4 h5 h6
  subst h1
  subst h2
  subst h3
  subst h4
  subst h5
  subst h6
  rfl

/-- Witness for C7: two separately constructed 5×5 boards with start
`(0, 0)` give the same tour. -/
theorem findTour_deterministic_witness :
    findTour (KnightsTour.init ((0 : Int), (0 : Int)) 5) =
      findTour (KnightsTour.init ((0 : Int), (0 : Int)) 5) :=
  findTour_deterministic ((0 : Int), (0 : Int)) 5
    (KnightsTour.init ((0 : Int), (0 : Int)) 5) (KnightsTour.init ((0 : Int), (0 : Int)) 5)
    rfl rfl rfl rfl rfl rfl

/-! ## Claim C3: Warnsdorff ordering of candidate exploration -/

theorem stable_sort_keyed (g : List (Square × List Square)) (keyed : List (Square × Nat)) (d : Nat) :
    (keyed.insertionSort degLE).filter (fun x => decide (x.2 = d)) =
      keyed.filter (fun x => decide (x.2 = d)) := by
  set p : Square × Nat → Bool := fun x => decide (x.2 = d) with hp
  set c : List (Square × Nat) := keyed.filter p with hc
  have hcp : c.Pairwise degLE := by
    refine List.pairwise_of_forall_mem_list ?_
    intro a ha b hb
    have ha2 : a.2 = d := by simpa [hp] using (List.mem_filter.mp ha).2
    have hb2 : b.2 = d := by simpa [hp] using (List.mem_filter.mp hb).2
    show a.2 ≤ b.2
    omega
  have hsub : List.Sublist c (keyed.insertionSort degLE) :=
    List.sublist_insertionSort hcp (List.filter_sublist keyed)
  have hall : ∀ x ∈ c, p x = true := fun x hx => (List.mem_filter.mp hx).2
  have hceq : c.filter p = c := List.filter_eq_self.mpr hall
  have hsub2 : List.Sublist c ((keyed.insertionSort degLE).filter p) := by
    rw [← hceq]
    exact hsub.filter p
  have hlen : ((keyed.insertionSort degLE).filter p).length = c.length := by
    rw [hc]
    exact ((List.perm_insertionSort degLE keyed).filter p).length_eq
  exact (hsub2.eq_of_length hlen.symm).symm

/-- C3: at each recursive step, the unvisited candidate neighbors of the
current square are explored in ascending order of static degree (the length
of the candidate's adjacency-map entry, i.e. its degree on the empty board),
with ties broken by the original neighbor enumeration order: the explored
list is a permutation of the candidates, sorted by static degree, and for
every degree value the candidates of that degree appear exactly in their
original relative order (stable sort). -/
theorem search_explores_candidates_warnsdorff (n : Int) (s0 cur : Square)
    (path : List Square) (hn : 1 ≤ n) (hv : valid n cur = true) :
    ∃ l, exploreOrder (KnightsTour.init s0 n).graph
        ((moves n cur).filter (fun node => !path.contains node)) = Except.ok l ∧
      l.Perm ((moves n cur).filter (fun node => !path.contains node)) ∧
      l.Pairwise (fun a b => degOf (KnightsTour.init s0 n).graph a ≤
        degOf (KnightsTour.init s0 n).graph b) ∧
      ∀ d : Nat, l.filter (fun x => decide (degOf (KnightsTour.init s0 n).graph x = d)) =
        ((moves n cur).filter (fun node => !path.contains node)).filter
          (fun x => decide (degOf (KnightsTour.init s0 n).graph x = d)) := by
  set g : List (Square × List Square) := (KnightsTour.init s0 n).graph with hgdef
  have hg : g = buildGraph n := rfl
  set cands : List Square := (moves n cur).filter (fun node => !path.contains node) with hcands
  have hSome : ∀ m ∈ cands, (g.lookup m).isSome = true := by
    intro m hm
    have hmv : valid n m = true := (mem_moves.mp (List.mem_of_mem_filter hm)).2
    rw [hg, lookup_buildGraph, if_pos hmv]
    rfl
  have heq := exploreOrder_eq_of_isSome g cands hSome
  set keyed : List (Square × Nat) := cands.map (fun m => (m, degOf g m)) with hkeyed
  set sortedKeyed : List (Square × Nat) := keyed.insertionSort degLE with hsk
  have hkm : keyed.map Prod.fst = cands := by
    simp [hkeyed, List.map_map, Function.comp_def]
  have hsnd : ∀ x ∈ keyed, x.2 = degOf g x.1 := by
    intro x hx
    obtain ⟨m, _, rfl⟩ := List.mem_map.mp hx
    rfl
  have hsndSorted : ∀ x ∈ sortedKeyed, x.2 = degOf g x.1 := by
    intro x hx
    exact hsnd x ((List.mem_insertionSort degLE).mp hx)
  refine ⟨sortedKeyed.map Prod.fst, heq, ?_, ?_, ?_⟩
  · exact hkm ▸ ((List.perm_insertionSort degLE keyed).map Prod.fst)
  · rw [List.pairwise_map]
    refine (List.sorted_insertionSort degLE keyed).imp_of_mem ?_
    intro a b ha hb hab
    have ha2 := hsndSorted a ha
    have hb2 := hsndSorted b hb
    show degOf g a.1 ≤ degOf g b.1
    rw [← ha2, ← hb2]
    exact hab
  · intro d
    have hL : (sortedKeyed.map Prod.fst).filter (fun x => decide (degOf g x = d)) =
        (sortedKeyed.filter (fun x => decide (x.2 = d))).map Prod.fst := by
      rw [List.filter_map]
      congr 1
      refine List.filter_congr ?_
      intro x hx
      simp [Function.comp, hsndSorted x hx]
    have hR : cands.filter (fun x => decide (degOf g x = d)) =
        (keyed.filter (fun x => decide (x.2 = d))).map Prod.fst := by
      conv_lhs => rw [← hkm]
      rw [List.filter_map]
      congr 1
      refine List.filter_congr ?_
      intro x hx
      simp [Function.comp, hsnd x hx]
    rw [hL, hR, stable_sort_keyed g keyed d]

/-- Witness for C3 at the first step of the 5×5 search from `(0, 0)` with an
empty visited path. -/
theorem search_explores_candidates_warnsdorff_witness :
    ∃ l, exploreOrder (KnightsTour.init ((0 : Int), (0 : Int)) 5).graph
        ((moves 5 ((0 : Int), (0 : Int))).filter
          (fun node => !(([] : List Square)).contains node)) = Except.ok l ∧
      l.Perm ((moves 5 ((0 : Int), (0 : Int))).filter
        (fun node => !(([] : List Square)).contains node)) ∧
      l.Pairwise (fun a b => degOf (KnightsTour.init ((0 : Int), (0 : Int)) 5).graph a ≤
        degOf (KnightsTour.init ((0 : Int), (0 : Int)) 5).graph b) ∧
      ∀ d : Nat,
        l.filter (fun x =>
          decide (degOf (KnightsTour.init ((0 : Int), (0 : Int)) 5).graph x = d)) =
        ((moves 5 ((0 : Int), (0 : Int))).filter
            (fun node => !(([] : List Square)).contains node)).filter
          (fun x =>
            decide (degOf (KnightsTour.init ((0 : Int), (0 : Int)) 5).graph x = d)) :=
  search_explores_candidates_warnsdorff 5 ((0 : Int), (0 : Int)) ((0 : Int), (0 : Int))
    ([] : List Square) (by norm_num) (by decide)

/-! ## Claim C6: no tour exists on the 3x3 and 4x4 boards -/

theorem returnsNone_eq {s : Square} {n : Int} (h : returnsNone s n = true) :
    findTour (KnightsTour.init s n) = Except.ok none := by
  unfold returnsNone at h
  cases hft : findTour (KnightsTour.init s n) with
  | error e =>
    rw [hft] at h
    simp at h
  | ok r =>
    cases r with
    | none => rfl
    | some p =>
      rw [hft] at h
      simp at h

set_option maxRecDepth 1000000 in
theorem noTour3_0_0 : returnsNone ((0 : Int), (0 : Int)) 3 = true := by decide!

set_option maxRecDepth 1000000 in
theorem noTour3_0_1 : returnsNone ((0 : Int), (1 : Int)) 3 = true := by decide!

set_option maxRecDepth 1000000 in
theorem noTour3_0_2 : returnsNone ((0 : Int), (2 : Int)) 3 = true := by decide!

set_option maxRecDepth 1000000 in
theorem noTour3_1_0 : returnsNone ((1 : Int), (0 : Int)) 3 = true := by decide!

set_option maxRecDepth 1000000 in
theorem noTour3_1_1 : returnsNone ((1 : Int), (1 : Int)) 3 = true := by decide!

set_option maxRecDepth 1000000 in
theorem noTour3_1_2 : returnsNone ((1 : Int), (2 : Int)) 3 = true := by decide!

set_option maxRecDepth 1000000 in
theorem noTour3_2_0 : returnsNone ((2 : Int), (0 : Int)) 3 = true := by decide!

set_option maxRecDepth 1000000 in
theorem noTour3_2_1 : returnsNone ((2 : Int), (1 : Int)) 3 = true := by decide!

set_option maxRecDepth 1000000 in
theorem noTour3_2_2 : returnsNone ((2 : Int), (2 : Int)) 3 = true := by decide!

set_option maxRecDepth 1000000 in
theorem noTour4_0_0 : returnsNone ((0 : Int), (0 : Int)) 4 = true := by decide!

set_option maxRecDepth 1000000 in
theorem noTour4_0_1 : returnsNone ((0 : Int), (1 : Int)) 4 = true := by decide!

set_option maxRecDepth 1000000 in
theorem noTour4_0_2 : returnsNone ((0 : Int), (2 : Int)) 4 = true := by decide!

set_option maxRecDepth 1000000 in
theorem noTour4_0_3 : returnsNone ((0 : Int), (3 : Int)) 4 = true := by decide!

set_option maxRecDepth 1000000 in
theorem noTour4_1_0 : returnsNone ((1 : Int), (0 : Int)) 4 = true := by decide!

set_option maxRecDepth 1000000 in
theorem noTour4_1_1 : returnsNone ((1 : Int), (1 : Int)) 4 = true := by decide!

set_option maxRecDepth 1000000 in
theorem noTour4_1_2 : returnsNone ((1 : Int), (2 : Int)) 4 = true := by decide!

set_option maxRecDepth 1000000 in
theorem noTour4_1_3 : returnsNone ((1 : Int), (3 : Int)) 4 = true := by decide!

set_option maxRecDepth 1000000 in
theorem noTour4_2_0 : returnsNone ((2 : Int), (0 : Int)) 4 = true := by decide!

set_option maxRecDepth 1000000 in
theorem noTour4_2_1 : returnsNone ((2 : Int), (1 : Int)) 4 = true := by decide!

set_option maxRecDepth 1000000 in
theorem noTour4_2_2 : returnsNone ((2 : Int), (2 : Int)) 4 = true := by decide!

set_option maxRecDepth 1000000 in
theorem noTour4_2_3 : returnsNone ((2 : Int), (3 : Int)) 4 = true := by decide!

set_option maxRecDepth 1000000 in
theorem noTour4_3_0 : returnsNone ((3 : Int), (0 : Int)) 4 = true := by decide!

set_option maxRecDepth 1000000 in
theorem noTour4_3_1 : returnsNone ((3 : Int), (1 : Int)) 4 = true := by decide!

set_option maxRecDepth 1000000 in
theorem noTour4_3_2 : returnsNone ((3 : Int), (2 : Int)) 4 = true := by decide!

set_option maxRecDepth 1000000 in
theorem noTour4_3_3 : returnsNone ((3 : Int), (3 : Int)) 4 = true := by decide!

/-- C6: on the 3×3 and 4×4 boards, `findTour` returns the explicit failure
signal (`None`) from every start square on the board — never a partial path
and never a complete path — matching the fact that no knight's tour exists on
those boards.  Established by exhaustively running the (backtracking) search
from each of the 9 + 16 possible start squares. -/
theorem findTour_fails_on_3x3_and_4x4 (s : Square) :
    (valid 3 s = true → findTour (KnightsTour.init s 3) = Except.ok none) ∧
    (valid 4 s = true → findTour (KnightsTour.init s 4) = Except.ok none) := by
  obtain ⟨x, y⟩ := s
  constructor
  · intro h
    rw [valid_iff] at h
    obtain ⟨h1, h2, h3, h4⟩ := h
    dsimp at h1 h2 h3 h4
    apply returnsNone_eq
    interval_cases x <;> interval_cases y
    exacts [noTour3_0_0, noTour3_0_1, noTour3_0_2, noTour3_1_0, noTour3_1_1,
      noTour3_1_2, noTour3_2_0, noTour3_2_1, noTour3_2_2]
  · intro h
    rw [valid_iff] at h
    obtain ⟨h1, h2, h3, h4⟩ := h
    dsimp at h1 h2 h3 h4
    apply returnsNone_eq
    interval_cases x <;> interval_cases y
    exacts [noTour4_0_0, noTour4_0_1, noTour4_0_2, noTour4_0_3,
      noTour4_1_0, noTour4_1_1, noTour4_1_2, noTour4_1_3,
      noTour4_2_0, noTour4_2_1, noTour4_2_2, noTour4_2_3,
      noTour4_3_0, noTour4_3_1, noTour4_3_2, noTour4_3_3]

/-- Witness for C6 at start `(0, 0)` on both boards. -/
theorem findTour_fails_on_3x3_and_4x4_witness :
    findTour (KnightsTour.init ((0 : Int), (0 : Int)) 3) = Except.ok none ∧
    findTour (KnightsTour.init ((0 : Int), (0 : Int)) 4) = Except.ok none :=
  ⟨(findTour_fails_on_3x3_and_4x4 ((0 : Int), (0 : Int))).1 (by decide),
   (findTour_fails_on_3x3_and_4x4 ((0 : Int), (0 : Int))).2 (by decide)⟩

/-! ## Claim C5: the standard 8x8 board from (0,0) yields a tour -/

/-- The tour that the search finds on the 8×8 board starting at `(0, 0)`. -/
def tour8 : List Square :=
  [(0, 0), (2, 1), (0, 2), (1, 0), (3, 1), (5, 0), (7, 1), (6, 3),
   (7, 5), (6, 7), (4, 6), (2, 7), (0, 6), (1, 4), (2, 6), (0, 7),
   (1, 5), (0, 3), (1, 1), (3, 0), (5, 1), (7, 0), (6, 2), (7, 4),
   (6, 6), (4, 7), (3, 5), (1, 6), (3, 7), (5, 6), (7, 7), (6, 5),
   (7, 3), (6, 1), (4, 0), (3, 2), (2, 0), (0, 1), (1, 3), (0, 5),
   (1, 7), (3, 6), (5, 7), (7, 6), (6, 4), (7, 2), (6, 0), (4, 1),
   (2, 2), (4, 3), (5, 5), (3, 4), (5, 3), (4, 5), (2, 4), (1, 2),
   (0, 4), (2, 3), (4, 2), (5, 4), (3, 3), (5, 2), (4, 4), (2, 5)]

/-- Predicate: `findTour` returned exactly the path `t`. -/
def findsTour (start : Square) (size : Int) (t : List Square) : Bool :=
  match findTour (KnightsTour.init start size) with
  | Except.ok (some l) => l == t
  | _ => false

theorem findsTour_eq {s : Square} {n : Int} {t : List Square}
    (h : findsTour s n t = true) :
    findTour (KnightsTour.init s n) = Except.ok (some t) := by
  unfold findsTour at h
  cases hft : findTour (KnightsTour.init s n) with
  | error e =>
    rw [hft] at h
    simp at h
  | ok r =>
    cases r with
    | none =>
      rw [hft] at h
      simp at h
    | some l =>
      rw [hft] at h
      simp only [beq_iff_eq] at h
      rw [h]

set_option maxRecDepth 1000000 in
theorem tour8_found : findsTour ((0 : Int), (0 : Int)) 8 tour8 = true := by decide!

/-- C5: on the standard 8×8 board starting at `(0, 0)`, `findTour` returns a
successful complete tour — the explicit path `tour8` of 64 distinct squares
starting at `(0, 0)` and covering the whole board — and not the failure
signal. -/
theorem findTour_8x8_succeeds :
    findTour (KnightsTour.init ((0 : Int), (0 : Int)) 8) = Except.ok (some tour8) ∧
    (tour8.length : Int) = 8 ^ 2 ∧ tour8.Nodup ∧
    tour8.head? = some ((0 : Int), (0 : Int)) ∧
    (∀ s : Square, valid 8 s = true → s ∈ tour8) := by
  refine ⟨findsTour_eq tour8_found, by decide, by decide, by decide, ?_⟩
  intro s hs
  have hmem : s ∈ allSquares 8 := mem_allSquares.mpr hs
  have hall : (allSquares 8).all (fun q => decide (q ∈ tour8)) = true := by decide
  exact of_decide_eq_true (List.all_eq_true.mp hall s hmem)

/-! ## Claim C9: the caller's path list is never mutated (copy-on-branch)

Python lists are heap objects passed by reference.  To state the frame
property, `_findPath` is re-embedded at the memory level: a `Heap` is the
store of all allocated lists, a list value is addressed by its allocation
index, and `path = path + [start]` *allocates a fresh list* (`allocH`) rather
than updating the callee's argument.  The theorem shows a call only ever
appends new allocations to the heap, so every list the caller holds —
including the `path` it passed in — is untouched even when the call and all
its recursive attempts fail, and sibling attempts all read the same caller
path. -/

abbrev Heap := List (List Square)

/-- Read the list stored at reference `r` (out-of-range reads give `[]`;
they never occur for references obtained from `allocH`). -/
def readH (h : Heap) (r : Nat) : List Square :=
  h.getD r []

/-- Allocate a fresh list, returning the extended heap and its reference. -/
def allocH (h : Heap) (l : List Square) : Heap × Nat :=
  (h ++ [l], h.length)

/-- Truthiness of `newpath` at the heap level: `None` is falsy, a reference
to an empty list is falsy. -/
def pyTruthyRef (h : Heap) : Option Nat → Bool
  | none => false
  | some r => !(readH h r).isEmpty

mutual

/-- Heap-level `_findPath`: same control flow as `findPath`, with the path
argument passed as a reference into the heap. -/
def findPathH (kt : KnightsTour) : Nat → Square → Nat → Heap → Except String (Option Nat) × Heap
  | 0, _, _, h0 => (Except.error "RecursionError", h0)
  | fuel + 1, start, pref, h0 =>
    let pathVal := readH h0 pref ++ [start]
    let h1 := (allocH h0 pathVal).1
    let pathRef := (allocH h0 pathVal).2
    if (pathVal.length : Int) = kt.size ^ 2 then
      (Except.ok (some pathRef), h1)
    else
      match kt.graph.lookup start with
      | none => (Except.error "KeyError", h1)
      | some adj =>
        let nodes := adj.filter (fun node => !pathVal.contains node)
        match exploreOrder kt.graph nodes with
        | Except.error e => (Except.error e, h1)
        | Except.ok sortedNodes => tryNodesH kt fuel pathRef sortedNodes h1
  termination_by fuel _ _ _ => (fuel, 0)

/-- Heap-level candidate loop: each sibling attempt receives the same
`pathRef`. -/
def tryNodesH (kt : KnightsTour) (fuel : Nat) (pathRef : Nat) :
    List Square → Heap → Except String (Option Nat) × Heap
  | [], h => (Except.ok none, h)
  | node :: rest, h =>
    if (readH h pathRef).contains node then tryNodesH kt fuel pathRef rest h
    else
      match findPathH kt fuel node pathRef h with
      | (Except.error e, h') => (Except.error e, h')
      | (Except.ok r, h') =>
        if pyTruthyRef h' r then (Except.ok r, h')
        else tryNodesH kt fuel pathRef rest h'
  termination_by l _ => (fuel, l.length + 1)

end

theorem findPathH_zero (kt : KnightsTour) (start : Square) (pref : Nat) (h0 : Heap) :
    findPathH kt 0 start pref h0 = (Except.error "RecursionError", h0) := by
  rw [findPathH]

theorem tryNodesH_nil (kt : KnightsTour) (fuel : Nat) (pathRef : Nat) (h : Heap) :
    tryNodesH kt fuel pathRef [] h = (Except.ok none, h) := by
  rw [tryNodesH]

theorem heap_frame (kt : KnightsTour) :
    ∀ fuel : Nat,
      (∀ start pref h0, ∃ ext, (findPathH kt fuel start pref h0).2 = h0 ++ ext) ∧
      (∀ pathRef l h0, ∃ ext, (tryNodesH kt fuel pathRef l h0).2 = h0 ++ ext) := by
  have hQ : ∀ fuel : Nat,
      (∀ start pref h0, ∃ ext, (findPathH kt fuel start pref h0).2 = h0 ++ ext) →
      (∀ pathRef l h0, ∃ ext, (tryNodesH kt fuel pathRef l h0).2 = h0 ++ ext) := by
    intro fuel hP pathRef l
    induction l with
    | nil =>
      intro h0
      exact ⟨[], by rw [tryNodesH_nil]; simp⟩
    | cons node rest ihl =>
      intro h0
      rw [tryNodesH]
      by_cases hc : (readH h0 pathRef).contains node = true
      · rw [if_pos hc]
        exact ihl h0
      · rw [if_neg hc]
        obtain ⟨ext1, hext1⟩ := hP node pathRef h0
        cases hres : findPathH kt fuel node pathRef h0 with
        | mk res h' =>
          rw [hres] at hext1
          dsimp at hext1
          cases res with
          | error e => exact ⟨ext1, hext1⟩
          | ok r =>
            dsimp only
            by_cases ht : pyTruthyRef h' r = true
            · rw [if_pos ht]
              exact ⟨ext1, hext1⟩
            · rw [if_neg ht]
              obtain ⟨ext2, hext2⟩ := ihl h'
              refine ⟨ext1 ++ ext2, ?_⟩
              rw [hext2, hext1, List.append_assoc]
  intro fuel
  induction fuel with
  | zero =>
    have hP : ∀ (start : Square) (pref : Nat) (h0 : Heap),
        ∃ ext, (findPathH kt 0 start pref h0).2 = h0 ++ ext := by
      intro start pref h0
      exact ⟨[], by rw [findPathH_zero]; simp⟩
    exact ⟨hP, hQ 0 hP⟩
  | succ fuel ih =>
    have hP : ∀ (start : Square) (pref : Nat) (h0 : Heap),
        ∃ ext, (findPathH kt (fuel + 1) start pref h0).2 = h0 ++ ext := by
      intro start pref h0
      rw [findPathH]
      by_cases hdone : ((readH h0 pref ++ [start]).length : Int) = kt.size ^ 2
      · rw [if_pos hdone]
        exact ⟨[readH h0 pref ++ [start]], rfl⟩
      · rw [if_neg hdone]
        cases hlk : kt.graph.lookup start with
        | none =>
          simp only [hlk]
          exact ⟨[readH h0 pref ++ [start]], rfl⟩
        | some adj =>
          simp only [hlk]
          cases hso : exploreOrder kt.graph
              ((adj.filter (fun node => !(readH h0 pref ++ [start]).contains node))) with
          | error e =>
            simp only [hso]
            exact ⟨[readH h0 pref ++ [start]], rfl⟩
          | ok sortedNodes =>
            simp only [hso]
            obtain ⟨ext2, hext2⟩ := hQ fuel ih.1 (allocH h0 (readH h0 pref ++ [start])).2
              sortedNodes (allocH h0 (readH h0 pref ++ [start])).1
            refine ⟨[readH h0 pref ++ [start]] ++ ext2, ?_⟩
            rw [hext2]
            rw [show (allocH h0 (readH h0 pref ++ [start])).1 =
              h0 ++ [readH h0 pref ++ [start]] from rfl]
            rw [List.append_assoc]
    exact ⟨hP, hQ (fuel + 1) hP⟩

/-- C9: a call of the recursive search step leaves every list the caller
holds unchanged — including when the call and all of its recursive attempts
fail.  The heap after the call is the heap before the call plus freshly
allocated lists (`path = path + [start]` is copy-on-branch), so every
existing reference — in particular the caller's path, which is handed
unchanged to each sibling attempt — reads the same value before and after. -/
theorem findPathH_preserves_caller_lists (kt : KnightsTour) (fuel : Nat) (start : Square)
    (pref : Nat) (h0 : Heap) :
    (∃ ext, (findPathH kt fuel start pref h0).2 = h0 ++ ext) ∧
    (∀ r, r < h0.length → readH (findPathH kt fuel start pref h0).2 r = readH h0 r) := by
  obtain ⟨ext, hext⟩ := (heap_frame kt fuel).1 start pref h0
  refine ⟨⟨ext, hext⟩, ?_⟩
  intro r hr
  rw [hext, readH, readH, List.getD_append _ _ _ _ hr]

/-- Witness for C9: a failing 2×2 search leaves the caller's stored path
`[(0, 0)]` untouched. -/
theorem findPathH_preserves_caller_lists_witness :
    (∃ ext, (findPathH (KnightsTour.init ((0 : Int), (0 : Int)) 2) 4 ((1 : Int), (1 : Int)) 0
      [[((0 : Int), (0 : Int))]]).2 = [[((0 : Int), (0 : Int))]] ++ ext) ∧
    readH (findPathH (KnightsTour.init ((0 : Int), (0 : Int)) 2) 4 ((1 : Int), (1 : Int)) 0
      [[((0 : Int), (0 : Int))]]).2 0 = readH [[((0 : Int), (0 : Int))]] 0 :=
  ⟨(findPathH_preserves_caller_lists (KnightsTour.init ((0 : Int), (0 : Int)) 2) 4
      ((1 : Int), (1 : Int)) 0 [[((0 : Int), (0 : Int))]]).1,
   (findPathH_preserves_caller_lists (KnightsTour.init ((0 : Int), (0 : Int)) 2) 4
      ((1 : Int), (1 : Int)) 0 [[((0 : Int), (0 : Int))]]).2 0 (by norm_num)⟩

/-- The heap-level result agrees with the pure result: same error, same
failure signal, or a reference whose stored list is the pure path. -/
def resultAgrees (hres : Except String (Option Nat) × Heap)
    (pres : Except String (Option (List Square))) : Prop :=
  match hres.1, pres with
  | Except.error e, Except.error e' => e = e'
  | Except.ok none, Except.ok none => True
  | Except.ok (some r), Except.ok (some p) => readH hres.2 r = p
  | _, _ => False

theorem readH_concat (h : Heap) (v : List Square) : readH (h ++ [v]) h.length = v := by
  rw [readH]
  simp

theorem readH_append_of_lt {h : Heap} {r : Nat} (ext : Heap) (hr : r < h.length) :
    readH (h ++ ext) r = readH h r := by
  rw [readH, readH, List.getD_append _ _ _ _ hr]

theorem tryNodes_cons (f : Square → Except String (Option (List Square)))
    (path : List Square) (node : Square) (rest : List Square) :
    tryNodes f path (node :: rest) =
      (if path.contains node then tryNodes f path rest
       else
        match f node with
        | Except.error e => Except.error e
        | Except.ok r => if pyTruthy r then Except.ok r else tryNodes f path rest) :=
  rfl

theorem refine_master (kt : KnightsTour) :
    ∀ fuel : Nat,
      (∀ start pref h0,
        resultAgrees (findPathH kt fuel start pref h0)
          (findPath kt fuel start (readH h0 pref))) ∧
      (∀ (l : List Square) (pathRef : Nat) (h : Heap), pathRef < h.length →
        resultAgrees (tryNodesH kt fuel pathRef l h)
          (tryNodes (fun node => findPath kt fuel node (readH h pathRef))
            (readH h pathRef) l)) := by
  have hQ : ∀ fuel : Nat,
      (∀ start pref h0,
        resultAgrees (findPathH kt fuel start pref h0)
          (findPath kt fuel start (readH h0 pref))) →
      (∀ (l : List Square) (pathRef : Nat) (h : Heap), pathRef < h.length →
        resultAgrees (tryNodesH kt fuel pathRef l h)
          (tryNodes (fun node => findPath kt fuel node (readH h pathRef))
            (readH h pathRef) l)) := by
    intro fuel hP l
    induction l with
    | nil =>
      intro pathRef h hlt
      rw [tryNodesH_nil]
      exact trivial
    | cons node rest ihl =>
      intro pathRef h hlt
      rw [tryNodesH, tryNodes_cons]
      by_cases hc : (readH h pathRef).contains node = true
      · rw [if_pos hc, if_pos hc]
        exact ihl pathRef h hlt
      · rw [if_neg hc, if_neg hc]
        have hagree := hP node pathRef h
        obtain ⟨ext, hext⟩ := (heap_frame kt fuel).1 node pathRef h
        rcases hres : findPathH kt fuel node pathRef h with ⟨res, h'⟩
        rw [hres] at hagree hext
        dsimp at hext
        have hlt' : pathRef < h'.length := by
          rw [hext, List.length_append]
          omega
        have hread' : readH h' pathRef = readH h pathRef := by
          rw [hext]
          exact readH_append_of_lt ext hlt
        cases hpres : findPath kt fuel node (readH h pathRef) with
        | error e' =>
          rw [hpres] at hagree
          cases res with
          | error e =>
            dsimp [resultAgrees] at hagree
            subst hagree
            dsimp
            exact rfl
          | ok r =>
            cases r with
            | none => exact absurd hagree (by dsimp [resultAgrees]; exact id)
            | some rr => exact absurd hagree (by dsimp [resultAgrees]; exact id)
        | ok rp =>
          rw [hpres] at hagree
          cases res with
          | error e =>
            cases rp with
            | none => exact absurd hagree (by dsimp [resultAgrees]; exact id)
            | some p => exact absurd hagree (by dsimp [resultAgrees]; exact id)
          | ok r =>
            cases r with
            | none =>
              cases rp with
              | some p => exact absurd hagree (by dsimp [resultAgrees]; exact id)
              | none =>
                dsimp [pyTruthyRef, pyTruthy]
                have := ihl pathRef h' hlt'
                rw [hread'] at this
                exact this
            | some rr =>
              cases rp with
              | none => exact absurd hagree (by dsimp [resultAgrees]; exact id)
              | some p =>
                dsimp [resultAgrees] at hagree
                dsimp [pyTruthyRef, pyTruthy]
                rw [hagree]
                by_cases hemp : p.isEmpty = true
                · rw [hemp]
                  dsimp
                  have := ihl pathRef h' hlt'
                  rw [hread'] at this
                  exact this
                · rw [Bool.not_eq_true] at hemp
                  rw [hemp]
                  dsimp [resultAgrees]
                  exact hagree
  intro fuel
  induction fuel with
  | zero =>
    have hP : ∀ (start : Square) (pref : Nat) (h0 : Heap),
        resultAgrees (findPathH kt 0 start pref h0) (findPath kt 0 start (readH h0 pref)) := by
      intro start pref h0
      rw [findPathH_zero]
      exact rfl
    exact ⟨hP, hQ 0 hP⟩
  | succ fuel ih =>
    have hP : ∀ (start : Square) (pref : Nat) (h0 : Heap),
        resultAgrees (findPathH kt (fuel + 1) start pref h0)
          (findPath kt (fuel + 1) start (readH h0 pref)) := by
      intro start pref h0
      rw [findPathH, findPath_succ]
      by_cases hdone : ((readH h0 pref ++ [start]).length : Int) = kt.size ^ 2
      · rw [if_pos hdone, if_pos hdone]
        dsimp [resultAgrees]
        exact readH_concat h0 (readH h0 pref ++ [start])
      · rw [if_neg hdone, if_neg hdone]
        cases hlk : kt.graph.lookup start with
        | none =>
          simp only [hlk]
          exact rfl
        | some adj =>
          simp only [hlk]
          cases hso : exploreOrder kt.graph
              ((adj.filter (fun node => !(readH h0 pref ++ [start]).contains node))) with
          | error e =>
            simp only [hso]
            exact rfl
          | ok sortedNodes =>
            simp only [hso]
            have hlt1 : (allocH h0 (readH h0 pref ++ [start])).2 <
                (allocH h0 (readH h0 pref ++ [start])).1.length := by
              dsimp [allocH]
              simp
            have hrd : readH (allocH h0 (readH h0 pref ++ [start])).1
                (allocH h0 (readH h0 pref ++ [start])).2 = readH h0 pref ++ [start] :=
              readH_concat h0 (readH h0 pref ++ [start])
            have := hQ fuel ih.1 sortedNodes (allocH h0 (readH h0 pref ++ [start])).2
              (allocH h0 (readH h0 pref ++ [start])).1 hlt1
            rw [hrd] at this
            exact this
    exact ⟨hP, hQ (fuel + 1) hP⟩

/-- The heap-level search agrees with the pure embedding: at every fuel, the
two return the same error / failure / success, and on success the allocated
result list is exactly the pure path. -/
theorem findPathH_refines_findPath (kt : KnightsTour) (fuel : Nat) (start : Square)
    (pref : Nat) (h0 : Heap) :
    resultAgrees (findPathH kt fuel start pref h0)
      (findPath kt fuel start (readH h0 pref)) :=
  (refine_master kt fuel).1 start pref h0

/-- Witness for C5: the success equation instantiated, plus coverage of the
concrete square `(3, 3)` obtained by applying the theorem's coverage
conjunct. -/
theorem findTour_8x8_succeeds_witness :
    findTour (KnightsTour.init ((0 : Int), (0 : Int)) 8) = Except.ok (some tour8) ∧
    ((3 : Int), (3 : Int)) ∈ tour8 :=
  ⟨findTour_8x8_succeeds.1, findTour_8x8_succeeds.2.2.2.2 ((3 : Int), (3 : Int)) (by decide)⟩
